import Mathlib

/-!
Verification of the tcp-groupchat server core (src/src/server.c) and the
wire codec shared with the client (client.c, receiver_thread).

Shallow embedding conventions:
* bytes are `Nat` values (0..255); buffers and wire frames are `List Nat`;
* a client slot is `Client`, mirroring `client_t` from server.c: `fd` is
  an `Int` with sentinel `-1` for an empty slot, `buf` holds exactly the
  `len` live bytes of the 1024-byte receive buffer, `addrIp`/`addrPort`
  are the raw network-order bytes of `sin_addr`/`sin_port`, `username`
  holds the bytes of the stored C string (the bytes before its NUL);
* the session table is a `List Client` of length `max_clients`;
* a send performed by the server is recorded as a pair
  `(slot index, bytes written)`; operations return the updated table
  together with the list of sends, in the order the C code performs them.
-/

namespace TcpGroupChat

/-- Wire protocol constants, fixed by include/protocol.h and asserted in
tests/test_protocol.c. -/
def MSG_TYPE_CHAT : Nat := 0

def MSG_TYPE_DISCONNECT : Nat := 1

def MSG_TYPE_JOIN : Nat := 2

def MSG_TYPE_USERNAME : Nat := 3

def BUF_SIZE : Nat := 1024

def MAX_USERNAME_LEN : Nat := 32

abbrev Bytes := List Nat

/-- `strlen`/`memcpy(dst, s, strlen(s))` view of a stored C string: the
bytes strictly before the first NUL. -/
def cstr (u : Bytes) : Bytes := u.takeWhile (fun b => b ≠ 0)

/-- One slot of the server's client table (`client_t` in server.c). -/
structure Client where
  fd : Int
  buf : Bytes
  addrIp : Bytes
  addrPort : Bytes
  username : Bytes
  hasUsername : Bool
deriving Repr, DecidableEq

/-- The send condition of the broadcast loop:
`clients[i].fd != -1 && clients[i].fd > 0`. -/
def sendCond (c : Client) : Bool := c.fd ≠ -1 && c.fd > 0

/-- The `for` loop body of `broadcast_message`, scanning slots from index
`i` upward and recording one send per slot that passes `sendCond`. -/
def broadcastGo (msg : Bytes) : List Client → Nat → List (Nat × Bytes)
  | [], _ => []
  | c :: rest, i =>
    if sendCond c then (i, msg) :: broadcastGo msg rest (i + 1)
    else broadcastGo msg rest (i + 1)

/-- `broadcast_message` (server.c:66): guard `msg_len <= 0` then one
`send_exact` per connected slot, in slot order. -/
def broadcast_message (clients : List Client) (msg : Bytes) : List (Nat × Bytes) :=
  if msg.length = 0 then [] else broadcastGo msg clients 0

/-- The join frame assembled by `broadcast_join` (server.c:84):
`[2][ip:4][port:2][len][username][\n]`. -/
def joinBytes (c : Client) : Bytes :=
  let u := cstr c.username
  [MSG_TYPE_JOIN] ++ c.addrIp ++ c.addrPort ++ [u.length] ++ u ++ [10]

/-- The disconnect frame assembled by `remove_client` (server.c:139):
`[1][ip:4][port:2][len][username][\n]`. -/
def disconnectBytes (ip port uname : Bytes) : Bytes :=
  let u := cstr uname
  [MSG_TYPE_DISCONNECT] ++ ip ++ port ++ [u.length] ++ u ++ [10]

/-- The chat frame assembled by the chat branch of `process_message`
(server.c:177): `[0][ip:4][port:2][len][username][content]`, where
`content` is the incoming payload after the type byte, newline included. -/
def chatBytes (c : Client) (content : Bytes) : Bytes :=
  let u := cstr c.username
  [MSG_TYPE_CHAT] ++ c.addrIp ++ c.addrPort ++ [u.length] ++ u ++ content

/-- `remove_client` (server.c:111): close the socket, clear the slot, and
when a username had been registered broadcast a disconnect frame to the
remaining clients (the slot itself is already `fd = -1`). -/
def remove_client (clients : List Client) (i : Nat) : List Client × List (Nat × Bytes) :=
  match clients[i]? with
  | none => (clients, [])
  | some cli =>
    if cli.fd = -1 then (clients, [])
    else
      let clients' := clients.set i { cli with fd := -1, buf := [], hasUsername := false }
      if cli.hasUsername then
        (clients', broadcast_message clients' (disconnectBytes cli.addrIp cli.addrPort cli.username))
      else
        (clients', [])

/-- `process_message` (server.c:161) applied to slot `i` whose buffer
holds a complete frame of `msgLen` bytes (terminator included) at its
front. -/
def process_message (clients : List Client) (i : Nat) (msgLen : Nat) :
    List Client × List (Nat × Bytes) :=
  match clients[i]? with
  | none => (clients, [])
  | some cli =>
    let msgType := cli.buf.headD 0
    if msgType = MSG_TYPE_USERNAME ∧ cli.hasUsername = false then
      if 2 < msgLen then
        let ulen := (cli.buf[1]?).getD 0
        if 0 < ulen ∧ ulen < MAX_USERNAME_LEN ∧ 2 + ulen ≤ msgLen then
          let newCli := { cli with username := (cli.buf.drop 2).take ulen, hasUsername := true }
          let clients' := clients.set i newCli
          (clients', broadcast_message clients' (joinBytes newCli))
        else (clients, [])
      else (clients, [])
    else if msgType = MSG_TYPE_CHAT ∧ cli.hasUsername = true then
      let content := (cli.buf.drop 1).take (msgLen - 1)
      (clients, broadcast_message clients (chatBytes cli content))
    else if msgType = MSG_TYPE_DISCONNECT then
      remove_client clients i
    else (clients, [])

/-- `memchr(cli->buf, '\n', cli->len)`: index of the first newline. -/
def findNewline : Bytes → Option Nat
  | [] => none
  | b :: rest => if b = 10 then some 0 else (findNewline rest).map (· + 1)

/-- The `while (cli->fd != -1)` frame-extraction loop of
`handle_client_data` (server.c:268).  Returns the updated table, the
sends performed, and (as observable instrumentation) the byte slices
handed to `process_message`.  `fuel` bounds the iteration count; each
productive iteration strictly shrinks the buffer, so any fuel beyond the
buffer length is enough. -/
def process_loop (clients : List Client) (i : Nat) : Nat →
    List Client × List (Nat × Bytes) × List Bytes
  | 0 => (clients, [], [])
  | fuel + 1 =>
    match clients[i]? with
    | none => (clients, [], [])
    | some cli =>
      if cli.fd = -1 then (clients, [], [])
      else
        match findNewline cli.buf with
        | none =>
          if cli.buf.length = BUF_SIZE then
            ((remove_client clients i).1, (remove_client clients i).2, [])
          else (clients, [], [])
        | some idx =>
          let msgLen := idx + 1
          let frame := cli.buf.take msgLen
          let r := process_message clients i msgLen
          match r.1[i]? with
          | none => (r.1, r.2, [frame])
          | some cli1 =>
            if cli1.fd = -1 then (r.1, r.2, [frame])
            else
              let r3 := process_loop (r.1.set i { cli1 with buf := cli1.buf.drop msgLen }) i fuel
              (r3.1, r.2 ++ r3.2.1, frame :: r3.2.2)

/-- `handle_client_data` (server.c:256) for one readiness event on slot
`i`.  `data` is the byte stream the peer has made available: the `read`
consumes `min data.length (BUF_SIZE - len)` of it; a read of 0 bytes
(peer closed, or no space left in the buffer) tears the session down,
mirroring the `num_read == 0` branch. -/
def handle_client_data (clients : List Client) (i : Nat) (data : Bytes) :
    List Client × List (Nat × Bytes) × List Bytes :=
  match clients[i]? with
  | none => (clients, [], [])
  | some cli =>
    if cli.fd = -1 then (clients, [], [])
    else
      let chunk := data.take (BUF_SIZE - cli.buf.length)
      if 0 < chunk.length then
        let cli' := { cli with buf := cli.buf ++ chunk }
        let clients1 := clients.set i cli'
        process_loop clients1 i (cli'.buf.length + 1)
      else
        ((remove_client clients i).1, (remove_client clients i).2, [])

/-- The first-empty-slot scan of `accept_client` (server.c:230). -/
def findEmptySlot : List Client → Option Nat
  | [] => none
  | c :: rest =>
    if c.fd = -1 then some 0 else (findEmptySlot rest).map (· + 1)

/-- `accept_client` (server.c:212) after a successful `accept`: place the
new socket in the first empty slot, else close it (`added = false`). -/
def accept_client (clients : List Client) (newFd : Int) (ip port : Bytes) :
    List Client × Bool :=
  if newFd = -1 then (clients, false)
  else
    match findEmptySlot clients with
    | some j =>
      match clients[j]? with
      | some old =>
        (clients.set j { old with fd := newFd, buf := [], addrIp := ip,
                                  addrPort := port, hasUsername := false }, true)
      | none => (clients, false)
    | none => (clients, false)

/-- Successive readiness events delivering `chunks` to slot `i`:
fold of `handle_client_data`, concatenating sends and extracted frames. -/
def feed_chunks (clients : List Client) (i : Nat) :
    List Bytes → List Client × List (Nat × Bytes) × List Bytes
  | [] => (clients, [], [])
  | c :: rest =>
    let r1 := handle_client_data clients i c
    let r2 := feed_chunks r1.1 i rest
    (r2.1, r1.2.1 ++ r2.2.1, r1.2.2 ++ r2.2.2)

/-! ## Wire codec

A fully decoded frame value (spec section 3 "Frame").  `ip` and `port`
carry the raw network-order bytes exactly as the C code `memcpy`s
`sin_addr`/`sin_port` into and out of the wire form. -/

inductive Frame where
  | chat (ip port user msg : Bytes)
  | join (ip port user : Bytes)
  | disconnect (ip port user : Bytes)
  | usernameReg (user : Bytes)
deriving Repr, DecidableEq

/-- Server/client-side encoders of the four frame kinds:
chat and join from `process_message`/`broadcast_join`, disconnect from
`remove_client`, username registration from the client's
`sender_thread`.  Every frame ends with the `\n` terminator. -/
def encode : Frame → Bytes
  | .chat ip port user msg =>
    let u := cstr user
    [MSG_TYPE_CHAT] ++ ip ++ port ++ [u.length] ++ u ++ msg ++ [10]
  | .join ip port user =>
    let u := cstr user
    [MSG_TYPE_JOIN] ++ ip ++ port ++ [u.length] ++ u ++ [10]
  | .disconnect ip port user =>
    let u := cstr user
    [MSG_TYPE_DISCONNECT] ++ ip ++ port ++ [u.length] ++ u ++ [10]
  | .usernameReg user =>
    let u := cstr user
    [MSG_TYPE_USERNAME] ++ [u.length] ++ u ++ [10]

/-- `recv_exact(sock, buf, n)` on a byte stream: `n` bytes plus the rest,
or `none` when the stream ends first. -/
def recvExact (n : Nat) (bs : Bytes) : Option (Bytes × Bytes) :=
  if n ≤ bs.length then some (bs.take n, bs.drop n) else none

/-- The chat-message loop of the client's `receiver_thread`
(client.c:163): read bytes until `\n`, storing at most
`BUF_SIZE - 1 = 1023` of them; fails if the stream ends first.
`idx` is the number of bytes stored so far. -/
def readMsg : Bytes → Nat → Option Bytes
  | [], _ => none
  | b :: rest, idx =>
    if b = 10 then some []
    else if idx < BUF_SIZE - 1 then (readMsg rest (idx + 1)).map (b :: ·)
    else readMsg rest (idx + 1)

/-- The username field read of `receiver_thread`: when
`0 < len < MAX_USERNAME_LEN` read exactly `len` bytes, otherwise leave
the stream alone and use the literal string "unknown". -/
def readUsername (ulen : Nat) (bs : Bytes) : Option (Bytes × Bytes) :=
  if 0 < ulen ∧ ulen < MAX_USERNAME_LEN then recvExact ulen bs
  else some ([117, 110, 107, 110, 111, 119, 110], bs)

/-- The shared `[ip:4][port:2][ulen:1][username]` header read of
`receiver_thread`. -/
def readHeader (bs : Bytes) : Option (Bytes × Bytes × Bytes × Bytes) :=
  match recvExact 4 bs with
  | none => none
  | some (ip, bs1) =>
    match recvExact 2 bs1 with
    | none => none
    | some (port, bs2) =>
      match bs2 with
      | [] => none
      | ulen :: bs3 =>
        match readUsername ulen bs3 with
        | none => none
        | some (user, bs4) => some (ip, port, user, bs4)

/-- Frame decoder.  Types 0/1/2 follow the client's `receiver_thread`
(client.c:116): header, then for chat a scan to `\n`, for join and
disconnect a single (unchecked) terminator byte.  Type 3 follows the
server's registration parse in `process_message` (server.c:164), the
only place the repository decodes a UsernameRegister frame. -/
def decode (bs : Bytes) : Option Frame :=
  match bs with
  | [] => none
  | t :: rest =>
    if t = MSG_TYPE_CHAT then
      match readHeader rest with
      | none => none
      | some (ip, port, user, bs4) =>
        match readMsg bs4 0 with
        | none => none
        | some msg => some (.chat ip port user msg)
    else if t = MSG_TYPE_JOIN then
      match readHeader rest with
      | none => none
      | some (ip, port, user, bs4) =>
        match bs4 with
        | [] => none
        | _ :: _ => some (.join ip port user)
    else if t = MSG_TYPE_DISCONNECT then
      match readHeader rest with
      | none => none
      | some (ip, port, user, bs4) =>
        match bs4 with
        | [] => none
        | _ :: _ => some (.disconnect ip port user)
    else if t = MSG_TYPE_USERNAME then
      let msgLen := bs.length
      if 2 < msgLen then
        match rest with
        | [] => none
        | ulen :: body =>
          if 0 < ulen ∧ ulen < MAX_USERNAME_LEN ∧ 2 + ulen ≤ msgLen then
            some (.usernameReg (body.take ulen))
          else none
      else none
    else none

/-! ## Helper lemmas -/

theorem set_self {α : Type} (l : List α) (i : Nat) (a : α) (h : l[i]? = some a) :
    l.set i a = l := by
  induction l generalizing i with
  | nil => simp at h
  | cons x xs ih =>
    cases i with
    | zero => simp at h; simp [h]
    | succ n => simp at h ⊢; exact ih n h

theorem findNewline_eq_none {l : Bytes} (h : 10 ∉ l) : findNewline l = none := by
  induction l with
  | nil => rfl
  | cons b rest ih =>
    simp only [List.mem_cons, not_or] at h
    simp [findNewline, Ne.symm h.1, ih h.2]

theorem findNewline_append {m rest : Bytes} (h : 10 ∉ m) :
    findNewline (m ++ 10 :: rest) = some m.length := by
  induction m with
  | nil => simp [findNewline]
  | cons b bs ih =>
    simp only [List.mem_cons, not_or] at h
    simp [findNewline, Ne.symm h.1, ih h.2]

theorem mem_broadcastGo_intro {l : List Client} {j : Nat} {c : Client} {msg : Bytes}
    (h : l[j]? = some c) (hc : sendCond c = true) :
    ∀ k, (k + j, msg) ∈ broadcastGo msg l k := by
  induction l generalizing j with
  | nil => simp at h
  | cons x xs ih =>
    intro k
    cases j with
    | zero =>
      simp only [List.getElem?_cons_zero, Option.some_inj] at h
      subst h
      simp [broadcastGo, hc]
    | succ n =>
      simp only [List.getElem?_cons_succ] at h
      have := ih h (k + 1)
      have harith : k + 1 + n = k + (n + 1) := by omega
      rw [harith] at this
      by_cases hx : sendCond x <;> simp [broadcastGo, hx, this]

theorem mem_broadcastGo_elim {l : List Client} {msg : Bytes} {p : Nat × Bytes} :
    ∀ k, p ∈ broadcastGo msg l k →
      ∃ j c, p.1 = k + j ∧ l[j]? = some c ∧ sendCond c = true ∧ p.2 = msg := by
  induction l with
  | nil => intro k hp; simp [broadcastGo] at hp
  | cons x xs ih =>
    intro k hp
    by_cases hx : sendCond x
    · simp only [broadcastGo, hx, if_pos, List.mem_cons] at hp
      rcases hp with hp | hp
      · exact ⟨0, x, by simp [hp], by simp, hx, by simp [hp]⟩
      · obtain ⟨j, c, h1, h2, h3, h4⟩ := ih (k + 1) hp
        exact ⟨j + 1, c, by omega, by simpa using h2, h3, h4⟩
    · simp only [broadcastGo, hx, if_neg, Bool.false_eq_true, not_false_eq_true] at hp
      obtain ⟨j, c, h1, h2, h3, h4⟩ := ih (k + 1) hp
      exact ⟨j + 1, c, by omega, by simpa using h2, h3, h4⟩

theorem broadcastGo_length (msg : Bytes) :
    ∀ (l : List Client) (k : Nat),
      (broadcastGo msg l k).length = (l.filter sendCond).length := by
  intro l
  induction l with
  | nil => intro k; rfl
  | cons x xs ih =>
    intro k
    by_cases hx : sendCond x <;> simp [broadcastGo, List.filter, hx, ih (k + 1)]

theorem broadcastGo_fst_lb {l : List Client} {msg : Bytes} {p : Nat × Bytes} :
    ∀ k, p ∈ broadcastGo msg l k → k ≤ p.1 := by
  intro k hp
  obtain ⟨j, c, h1, _, _, _⟩ := mem_broadcastGo_elim k hp
  omega

theorem broadcastGo_fst_nodup (msg : Bytes) :
    ∀ (l : List Client) (k : Nat), ((broadcastGo msg l k).map Prod.fst).Nodup := by
  intro l
  induction l with
  | nil => intro k; simp [broadcastGo]
  | cons x xs ih =>
    intro k
    by_cases hx : sendCond x
    · simp only [broadcastGo, hx, if_pos, List.map_cons, List.nodup_cons]
      refine ⟨?_, ih (k + 1)⟩
      intro hmem
      simp only [List.mem_map] at hmem
      obtain ⟨p, hp, hpk⟩ := hmem
      have := broadcastGo_fst_lb (k + 1) hp
      omega
    · simpa [broadcastGo, hx] using ih (k + 1)

theorem remove_client_fst {clients : List Client} {i : Nat} {cli : Client}
    (h : clients[i]? = some cli) (hfd : cli.fd ≠ -1) :
    (remove_client clients i).1 =
      clients.set i { cli with fd := -1, buf := [], hasUsername := false } := by
  unfold remove_client
  rw [h]
  simp only [hfd, if_neg, not_false_eq_true]
  by_cases hu : cli.hasUsername <;> simp [hu]

/-! ## Easy claim fixtures (concrete tables used by witnesses and
counterexamples) -/

/-- A connected, unregistered session in slot 0. -/
def fixOpen : Client := ⟨5, [], [1, 2, 3, 4], [7, 8], [], false⟩

/-- A connected, registered session ("bob"). -/
def fixBob : Client := ⟨6, [], [9, 9, 9, 9], [1, 1], [98, 111, 98], true⟩

/-! ## C9: re-registration is a no-op -/

/-- C9: for a session already in the Registered state, processing any
further UsernameRegister frame leaves the whole table unchanged (stored
username, registration flag and every other field included) and emits no
send, so no Join frame is broadcast. -/
theorem c9_reregistration_noop (clients : List Client) (i : Nat) (cli : Client)
    (msgLen : Nat) (h : clients[i]? = some cli) (hreg : cli.hasUsername = true)
    (hhead : cli.buf.headD 0 = MSG_TYPE_USERNAME) :
    process_message clients i msgLen = (clients, []) := by
  unfold process_message
  rw [h]
  simp only [List.headD_eq_head?_getD] at hhead
  simp [hhead, hreg, MSG_TYPE_USERNAME, MSG_TYPE_CHAT, MSG_TYPE_DISCONNECT]

/-- Witness for C9: the registered session `fixBob` resubmitting a
registration frame for "ab" changes nothing and broadcasts nothing. -/
theorem c9_witness :
    process_message [{ fixBob with buf := [3, 2, 97, 98, 10] }] 0 5 =
      ([{ fixBob with buf := [3, 2, 97, 98, 10] }], []) :=
  c9_reregistration_noop _ 0 _ 5 rfl rfl rfl

/-! ## C5: Chat/Disconnect while Unregistered -/

/-- Counterexample for C5: an unregistered session whose frame is a
Disconnect (`[1][\n]`) does NOT keep its state unchanged — the code
tears the session down (`remove_client`), so the resulting table differs
from the original. -/
theorem c5_counterexample :
    ¬ ((process_message [{ fixOpen with buf := [1, 10] }] 0 2).1 =
        [{ fixOpen with buf := [1, 10] }]) := by
  decide

/-- C5 as amended: while Unregistered, a Chat frame is silently ignored
(table unchanged, no broadcast), but a Disconnect frame tears the
session down: socket closed (`fd = -1`), buffer cleared, slot released,
still with no broadcast to anyone. -/
theorem c5_amended (clients : List Client) (i : Nat) (cli : Client) (msgLen : Nat)
    (h : clients[i]? = some cli) (hunreg : cli.hasUsername = false) :
    (cli.buf.headD 0 = MSG_TYPE_CHAT → process_message clients i msgLen = (clients, [])) ∧
    (cli.buf.headD 0 = MSG_TYPE_DISCONNECT → cli.fd ≠ -1 →
      process_message clients i msgLen =
        (clients.set i { cli with fd := -1, buf := [], hasUsername := false }, [])) := by
  constructor
  · intro hhead
    unfold process_message
    rw [h]
    simp only [List.headD_eq_head?_getD] at hhead
    simp [hhead, hunreg, MSG_TYPE_CHAT, MSG_TYPE_USERNAME, MSG_TYPE_DISCONNECT]
  · intro hhead hfd
    unfold process_message remove_client
    rw [h]
    simp only [List.headD_eq_head?_getD] at hhead
    simp [hhead, hunreg, hfd, MSG_TYPE_CHAT, MSG_TYPE_USERNAME, MSG_TYPE_DISCONNECT]

/-- Witness for C5 (amended): concrete unregistered session; a chat
frame is ignored, and a disconnect frame closes the slot silently. -/
theorem c5_amended_witness :
    (process_message [{ fixOpen with buf := [0, 104, 10] }] 0 3 =
      ([{ fixOpen with buf := [0, 104, 10] }], [])) ∧
    (process_message [{ fixOpen with buf := [1, 10] }] 0 2 =
      ([{ fixOpen with fd := -1, buf := [], hasUsername := false }], [])) := by
  constructor
  · exact (c5_amended [{ fixOpen with buf := [0, 104, 10] }] 0 _ 3 rfl rfl).1 rfl
  · have := (c5_amended [{ fixOpen with buf := [1, 10] }] 0 _ 2 rfl rfl).2 rfl (by decide)
    simpa using this

/-! ## C6: malformed registration -/

/-- Counterexample for C6: an unregistered session submitting the
malformed registration frame `[3][0][\n]` (declared username length 0)
is NOT torn down — its socket stays open (`fd = 5`, not `-1`). -/
theorem c6_counterexample :
    ¬ (((process_message [{ fixOpen with buf := [3, 0, 10] }] 0 3).1[0]?).map Client.fd
        = some (-1)) := by
  decide

/-- C6 as amended: for an unregistered session, a malformed
UsernameRegister frame (declared length 0, length ≥ 32, frame shorter
than `2 + length`, or frame of at most 2 bytes) is silently ignored: the
table is completely unchanged — the session stays connected and
unregistered — and nothing is broadcast. -/
theorem c6_amended (clients : List Client) (i : Nat) (cli : Client) (msgLen : Nat)
    (h : clients[i]? = some cli) (hunreg : cli.hasUsername = false)
    (hhead : cli.buf.headD 0 = MSG_TYPE_USERNAME)
    (hbad : ¬ (2 < msgLen ∧ 0 < (cli.buf[1]?).getD 0 ∧
      (cli.buf[1]?).getD 0 < MAX_USERNAME_LEN ∧ 2 + (cli.buf[1]?).getD 0 ≤ msgLen)) :
    process_message clients i msgLen = (clients, []) := by
  unfold process_message
  rw [h]
  simp only [List.headD_eq_head?_getD] at hhead
  simp only [hhead, hunreg, MSG_TYPE_USERNAME]
  by_cases h2 : 2 < msgLen
  · have hbad' : ¬ (0 < (cli.buf[1]?).getD 0 ∧
        (cli.buf[1]?).getD 0 < MAX_USERNAME_LEN ∧ 2 + (cli.buf[1]?).getD 0 ≤ msgLen) := by
      intro hc; exact hbad ⟨h2, hc⟩
    simp [h2, hbad', hhead, MSG_TYPE_USERNAME, MSG_TYPE_DISCONNECT]
  · simp [h2, hhead, MSG_TYPE_USERNAME, MSG_TYPE_DISCONNECT]

/-- Witness for C6 (amended): the session stays untouched on the
malformed frame `[3][0][\n]`. -/
theorem c6_amended_witness :
    process_message [{ fixOpen with buf := [3, 0, 10] }] 0 3 =
      ([{ fixOpen with buf := [3, 0, 10] }], []) :=
  c6_amended _ 0 _ 3 rfl rfl rfl (by decide)

/-! ## C4: chat broadcast fan-out -/

/-- Counterexample for C4: a table with one registered session (slot 0,
"bob") and one connected but unregistered session (slot 1).  The chat
frame from slot 0 produces 2 sends, not N = 1, and slot 1 — whose
username is unset — receives the chat frame. -/
theorem c4_counterexample :
    ((process_message [{ fixBob with buf := [0, 104, 105, 10] }, fixOpen] 0 4).2.map
        Prod.fst = [0, 1]) ∧
    ([{ fixBob with buf := [0, 104, 105, 10] }, fixOpen][1]?).map Client.hasUsername
        = some false ∧
    (process_message [{ fixBob with buf := [0, 104, 105, 10] }, fixOpen] 0 4).2.length ≠ 1 := by
  decide

/-- C4 as amended: a Chat frame from registered session S causes exactly
one send to every *connected* slot (`fd ≠ -1 ∧ fd > 0`) — including S
itself and including connected sessions whose username is unset — and
all sends carry byte-identical payloads.  The table is unchanged. -/
theorem c4_amended (clients : List Client) (i : Nat) (cli : Client) (msgLen : Nat)
    (h : clients[i]? = some cli) (hreg : cli.hasUsername = true)
    (hhead : cli.buf.headD 0 = MSG_TYPE_CHAT) :
    (process_message clients i msgLen).1 = clients ∧
    (process_message clients i msgLen).2.length = (clients.filter sendCond).length ∧
    ((process_message clients i msgLen).2.map Prod.fst).Nodup ∧
    (∀ p ∈ (process_message clients i msgLen).2,
      p.2 = chatBytes cli ((cli.buf.drop 1).take (msgLen - 1))) ∧
    (∀ j c, clients[j]? = some c → sendCond c = true →
      (j, chatBytes cli ((cli.buf.drop 1).take (msgLen - 1)))
        ∈ (process_message clients i msgLen).2) := by
  have hpm : process_message clients i msgLen =
      (clients, broadcast_message clients (chatBytes cli ((cli.buf.drop 1).take (msgLen - 1)))) := by
    unfold process_message
    rw [h]
    simp only [List.headD_eq_head?_getD] at hhead
    simp [hhead, hreg, MSG_TYPE_CHAT, MSG_TYPE_USERNAME]
  have hne : (chatBytes cli ((cli.buf.drop 1).take (msgLen - 1))).length ≠ 0 := by
    simp [chatBytes]
  have hbm : broadcast_message clients (chatBytes cli ((cli.buf.drop 1).take (msgLen - 1)))
      = broadcastGo (chatBytes cli ((cli.buf.drop 1).take (msgLen - 1))) clients 0 := by
    unfold broadcast_message
    rw [if_neg hne]
  rw [hpm, hbm]
  refine ⟨rfl, broadcastGo_length _ _ _, broadcastGo_fst_nodup _ _ _, ?_, ?_⟩
  · intro p hp
    obtain ⟨j, c, _, _, _, h4⟩ := mem_broadcastGo_elim 0 hp
    exact h4
  · intro j c hj hc
    have hm := @mem_broadcastGo_intro clients j c (chatBytes cli ((cli.buf.drop 1).take (msgLen - 1)))
      hj hc 0
    simpa using hm

/-- Witness for C4 (amended): both connected slots of the
counterexample table receive the identical chat payload once each. -/
theorem c4_amended_witness :
    (process_message [{ fixBob with buf := [0, 104, 105, 10] }, fixOpen] 0 4).1 =
        [{ fixBob with buf := [0, 104, 105, 10] }, fixOpen] ∧
    (process_message [{ fixBob with buf := [0, 104, 105, 10] }, fixOpen] 0 4).2.length =
        ([{ fixBob with buf := [0, 104, 105, 10] }, fixOpen].filter sendCond).length := by
  have h := c4_amended [{ fixBob with buf := [0, 104, 105, 10] }, fixOpen] 0
    { fixBob with buf := [0, 104, 105, 10] } 4 rfl rfl rfl
  exact ⟨h.1, h.2.1⟩

/-! ## C8: full table rejects new connection -/

theorem findEmptySlot_eq_none {l : List Client} (h : ∀ c ∈ l, c.fd ≠ -1) :
    findEmptySlot l = none := by
  induction l with
  | nil => rfl
  | cons x xs ih =>
    have hx : x.fd ≠ -1 := h x (by simp)
    simp [findEmptySlot, hx, ih (fun c hc => h c (by simp [hc]))]

/-- C8: when every slot is occupied, an accepted connection is rejected:
the table is returned unchanged (`added = false`, so the caller closes
the new socket), the connection is never placed in the table, existing
sessions are untouched, and — since every broadcast send targets a table
slot satisfying the send condition — the rejected connection can never
appear in any subsequent broadcast. -/
theorem c8_full_table_rejects (clients : List Client) (newFd : Int) (ip port : Bytes)
    (hfull : ∀ c ∈ clients, c.fd ≠ -1) :
    accept_client clients newFd ip port = (clients, false) ∧
    (∀ msg p, p ∈ broadcast_message clients msg →
      ∃ c, clients[p.1]? = some c ∧ sendCond c = true) := by
  constructor
  · unfold accept_client
    by_cases hf : newFd = -1
    · simp [hf]
    · simp [hf, findEmptySlot_eq_none hfull]
  · intro msg p hp
    unfold broadcast_message at hp
    by_cases hm : msg.length = 0
    · simp [hm] at hp
    · simp only [hm, if_neg, not_false_eq_true] at hp
      obtain ⟨j, c, h1, h2, h3, _⟩ := mem_broadcastGo_elim 0 hp
      exact ⟨c, by simpa [h1] using h2, h3⟩

/-- Witness for C8: a capacity-2 table with both slots occupied rejects
a third connection, returning the table unchanged. -/
theorem c8_witness :
    accept_client [fixOpen, fixBob] 9 [4, 3, 2, 1] [2, 2] = ([fixOpen, fixBob], false) :=
  (c8_full_table_rejects [fixOpen, fixBob] 9 [4, 3, 2, 1] [2, 2] (by decide)).1

/-! ## C7: buffer full without terminator -/

theorem findEmptySlot_isSome_of {l : List Client} {j : Nat} {c : Client}
    (h : l[j]? = some c) (hc : c.fd = -1) : (findEmptySlot l).isSome := by
  induction l generalizing j with
  | nil => simp at h
  | cons x xs ih =>
    cases j with
    | zero =>
      simp only [List.getElem?_cons_zero, Option.some_inj] at h
      subst h
      simp [findEmptySlot, hc]
    | succ n =>
      simp only [List.getElem?_cons_succ] at h
      by_cases hx : x.fd = -1
      · simp [findEmptySlot, hx]
      · have := ih h
        simp only [findEmptySlot, hx, if_neg, not_false_eq_true]
        cases hfind : findEmptySlot xs with
        | none => rw [hfind] at this; simp at this
        | some k => simp

theorem findEmptySlot_sound {l : List Client} {j : Nat} :
    findEmptySlot l = some j → ∃ c, l[j]? = some c ∧ c.fd = -1 := by
  induction l generalizing j with
  | nil => intro h; simp [findEmptySlot] at h
  | cons x xs ih =>
    intro h
    by_cases hx : x.fd = -1
    · simp only [findEmptySlot, hx, if_pos, Option.some_inj] at h
      subst h
      exact ⟨x, by simp, hx⟩
    · simp only [findEmptySlot, hx, if_neg, not_false_eq_true, Option.map_eq_some'] at h
      obtain ⟨k, hk, rfl⟩ := h
      obtain ⟨c, hc1, hc2⟩ := ih hk
      exact ⟨c, by simpa using hc1, hc2⟩

/-- C7: when a read fills a session's buffer to exactly `BUF_SIZE = 1024`
bytes with no newline present, the handling step closes that session:
the slot is reset to empty (`fd = -1`, empty buffer, no username),
every other slot is untouched, and a subsequent `accept_client` with any
valid socket succeeds in placing the new connection (the freed slot is
reusable). -/
theorem c7_overflow_teardown (clients : List Client) (i : Nat) (cli : Client)
    (data : Bytes) (h : clients[i]? = some cli) (hfd : cli.fd ≠ -1)
    (hchunk : data.take (BUF_SIZE - cli.buf.length) ≠ [])
    (hfull : cli.buf.length + (data.take (BUF_SIZE - cli.buf.length)).length = BUF_SIZE)
    (hnonl : (10 : Nat) ∉ cli.buf ++ data.take (BUF_SIZE - cli.buf.length)) :
    (handle_client_data clients i data).1 =
        clients.set i { cli with fd := -1, buf := [], hasUsername := false } ∧
    (∀ j, j ≠ i → (handle_client_data clients i data).1[j]? = clients[j]?) ∧
    ((handle_client_data clients i data).1[i]?).map Client.fd = some (-1) ∧
    (∀ fd' ip' port', fd' ≠ -1 →
      (accept_client (handle_client_data clients i data).1 fd' ip' port').2 = true) := by
  obtain ⟨hi, -⟩ := List.getElem?_eq_some_iff.mp h
  have hi' : i < (clients.set i { cli with buf := cli.buf ++ data.take (BUF_SIZE - cli.buf.length) }).length := by
    simpa using hi
  have hfst : (handle_client_data clients i data).1 =
      clients.set i { cli with fd := -1, buf := [], hasUsername := false } := by
    unfold handle_client_data
    rw [h]
    have hlen : 0 < (data.take (BUF_SIZE - cli.buf.length)).length :=
      List.length_pos.mpr hchunk
    simp only [hfd, if_neg, not_false_eq_true, hlen, if_pos]
    rw [process_loop]
    rw [List.getElem?_set_self hi]
    simp only [hfd, if_neg, not_false_eq_true]
    rw [findNewline_eq_none hnonl]
    have hblen : (cli.buf ++ data.take (BUF_SIZE - cli.buf.length)).length = BUF_SIZE := by
      simpa [List.length_append] using hfull
    simp only [hblen, if_pos]
    have hrc := @remove_client_fst
      (clients.set i { cli with buf := cli.buf ++ data.take (BUF_SIZE - cli.buf.length) }) i
      { cli with buf := cli.buf ++ data.take (BUF_SIZE - cli.buf.length) }
      (List.getElem?_set_self hi) hfd
    rw [hrc]
    rw [List.set_set]
  refine ⟨hfst, ?_, ?_, ?_⟩
  · intro j hj
    rw [hfst, List.getElem?_set_ne (Ne.symm hj)]
  · rw [hfst, List.getElem?_set_self hi]
    rfl
  · intro fd' ip' port' hfd'
    rw [hfst]
    have hslot : (clients.set i { cli with fd := -1, buf := [], hasUsername := false })[i]? =
        some { cli with fd := -1, buf := [], hasUsername := false } :=
      List.getElem?_set_self hi
    have hsome := findEmptySlot_isSome_of hslot rfl
    obtain ⟨j', hj'⟩ := Option.isSome_iff_exists.mp hsome
    obtain ⟨old, hold, -⟩ := findEmptySlot_sound hj'
    unfold accept_client
    simp [hfd', hj', hold]

/-- Witness for C7: a fresh connected session receives 1024 newline-free
bytes in one read; the slot is torn down and a new connection can take
it. -/
theorem c7_witness :
    (handle_client_data [fixOpen] 0 (List.replicate BUF_SIZE 97)).1 =
        [{ fixOpen with fd := -1, buf := [], hasUsername := false }] ∧
    (accept_client (handle_client_data [fixOpen] 0 (List.replicate BUF_SIZE 97)).1
        9 [4, 3, 2, 1] [2, 2]).2 = true := by
  have hTake : (List.replicate BUF_SIZE 97).take (BUF_SIZE - fixOpen.buf.length) =
      List.replicate BUF_SIZE 97 := by
    show (List.replicate BUF_SIZE 97).take (BUF_SIZE - ([] : Bytes).length) = _
    rw [List.length_nil, Nat.sub_zero]
    exact List.take_of_length_le (by rw [List.length_replicate])
  have h := c7_overflow_teardown [fixOpen] 0 fixOpen (List.replicate BUF_SIZE 97) rfl
    (by intro hc; exact absurd hc (by decide))
    (by
      rw [hTake]
      exact List.ne_nil_of_length_pos (by rw [List.length_replicate]; decide))
    (by
      rw [hTake, List.length_replicate]
      show (0 : Nat) + BUF_SIZE = BUF_SIZE
      omega)
    (by
      rw [hTake]
      show (10 : Nat) ∉ ([] : Bytes) ++ List.replicate BUF_SIZE 97
      rw [List.nil_append]
      intro hmem
      have := List.eq_of_mem_replicate hmem
      omega)
  exact ⟨h.1, h.2.2.2 9 [4, 3, 2, 1] [2, 2] (by decide)⟩

/-! ## C3: codec round-trip -/

theorem cstr_eq_self {u : Bytes} (h : (0 : Nat) ∉ u) : cstr u = u := by
  unfold cstr
  rw [List.takeWhile_eq_self_iff]
  intro x hx
  simp only [ne_eq, decide_eq_true_eq]
  intro hx0
  exact h (hx0 ▸ hx)

theorem recvExact_append (l rest : Bytes) : recvExact l.length (l ++ rest) = some (l, rest) := by
  unfold recvExact
  rw [if_pos (by rw [List.length_append]; omega)]
  rw [List.take_left, List.drop_left]

theorem readHeader_encode {ip port u : Bytes} (rest : Bytes)
    (h4 : ip.length = 4) (h2 : port.length = 2)
    (hu1 : 1 ≤ u.length) (hu31 : u.length ≤ 31) :
    readHeader (ip ++ (port ++ (u.length :: (u ++ rest)))) = some (ip, port, u, rest) := by
  have e4 : recvExact 4 (ip ++ (port ++ (u.length :: (u ++ rest)))) =
      some (ip, port ++ (u.length :: (u ++ rest))) := by
    rw [← h4, recvExact_append]
  have e2 : recvExact 2 (port ++ (u.length :: (u ++ rest))) =
      some (port, u.length :: (u ++ rest)) := by
    rw [← h2, recvExact_append]
  have eu : readUsername u.length (u ++ rest) = some (u, rest) := by
    unfold readUsername
    rw [if_pos ⟨hu1, by unfold MAX_USERNAME_LEN; omega⟩, recvExact_append]
  simp [readHeader, e4, e2, eu]

theorem readMsg_append {m : Bytes} (rest : Bytes) (hm : (10 : Nat) ∉ m) :
    ∀ idx, readMsg (m ++ 10 :: rest) idx = some (m.take (BUF_SIZE - 1 - idx)) := by
  induction m with
  | nil =>
    intro idx
    simp [readMsg]
  | cons b bs ih =>
    intro idx
    simp only [List.mem_cons, not_or] at hm
    simp only [List.cons_append, readMsg, Ne.symm hm.1, if_neg, not_false_eq_true,
      List.append_eq]
    by_cases hidx : idx < BUF_SIZE - 1
    · rw [if_pos hidx, ih hm.2 (idx + 1)]
      have hs : BUF_SIZE - 1 - idx = (BUF_SIZE - 1 - (idx + 1)) + 1 := by
        unfold BUF_SIZE at hidx ⊢; omega
      simp [hs]
    · rw [if_neg hidx, ih hm.2 (idx + 1)]
      have hz : BUF_SIZE - 1 - idx = 0 := by unfold BUF_SIZE at hidx ⊢; omega
      have hz2 : BUF_SIZE - 1 - (idx + 1) = 0 := by unfold BUF_SIZE at hidx ⊢; omega
      simp [hz, hz2]

/-- Frame constructibility, following the C data model: `ip`/`port` are
the 4/2 raw bytes of `sin_addr`/`sin_port`; the username is a C string
(so it has no interior NUL byte) of `strlen` between 1 and 31; a chat
message carries no `\n` byte (the frame terminator). -/
def wfFrame : Frame → Prop
  | .chat ip port u m =>
    ip.length = 4 ∧ port.length = 2 ∧ 1 ≤ u.length ∧ u.length ≤ 31 ∧
      (0 : Nat) ∉ u ∧ (10 : Nat) ∉ m
  | .join ip port u =>
    ip.length = 4 ∧ port.length = 2 ∧ 1 ≤ u.length ∧ u.length ≤ 31 ∧ (0 : Nat) ∉ u
  | .disconnect ip port u =>
    ip.length = 4 ∧ port.length = 2 ∧ 1 ≤ u.length ∧ u.length ≤ 31 ∧ (0 : Nat) ∉ u
  | .usernameReg u => 1 ≤ u.length ∧ u.length ≤ 31 ∧ (0 : Nat) ∉ u

/-- The extra bound forced by the client's fixed 1024-byte message
buffer: a chat message survives the round trip only up to 1023 bytes. -/
def msgFits : Frame → Prop
  | .chat _ _ _ m => m.length ≤ BUF_SIZE - 1
  | _ => True

/-- Definitional reductions of `decode` at each type byte. -/
theorem decode_chat_cons (rest : Bytes) :
    decode (0 :: rest) =
      (match readHeader rest with
       | none => none
       | some (ip, port, user, bs4) =>
         match readMsg bs4 0 with
         | none => none
         | some msg => some (.chat ip port user msg)) := rfl

theorem decode_join_cons (rest : Bytes) :
    decode (2 :: rest) =
      (match readHeader rest with
       | none => none
       | some (ip, port, user, bs4) =>
         match bs4 with
         | [] => none
         | _ :: _ => some (.join ip port user)) := rfl

theorem decode_disconnect_cons (rest : Bytes) :
    decode (1 :: rest) =
      (match readHeader rest with
       | none => none
       | some (ip, port, user, bs4) =>
         match bs4 with
         | [] => none
         | _ :: _ => some (.disconnect ip port user)) := rfl

theorem decode_username_cons (rest : Bytes) :
    decode (3 :: rest) =
      (if 2 < (3 :: rest).length then
        match rest with
        | [] => none
        | ulen :: body =>
          if 0 < ulen ∧ ulen < MAX_USERNAME_LEN ∧ 2 + ulen ≤ (3 :: rest).length then
            some (.usernameReg (body.take ulen))
          else none
      else none) := rfl

/-- Counterexample for C3: the constructible chat frame with a
1024-byte `\n`-free message encodes fine, but the client's receiver
stores at most 1023 message bytes (client.c:173), so decode∘encode
truncates the message and does not return the original frame. -/
theorem c3_counterexample :
    wfFrame (Frame.chat [1, 2, 3, 4] [7, 8] [97] (List.replicate BUF_SIZE 98)) ∧
    decode (encode (Frame.chat [1, 2, 3, 4] [7, 8] [97] (List.replicate BUF_SIZE 98))) ≠
      some (Frame.chat [1, 2, 3, 4] [7, 8] [97] (List.replicate BUF_SIZE 98)) := by
  have hwf : wfFrame (Frame.chat [1, 2, 3, 4] [7, 8] [97] (List.replicate BUF_SIZE 98)) := by
    refine ⟨rfl, rfl, by decide, by decide, by decide, ?_⟩
    intro hmem
    have := List.eq_of_mem_replicate hmem
    omega
  refine ⟨hwf, ?_⟩
  have henc : encode (Frame.chat [1, 2, 3, 4] [7, 8] [97] (List.replicate BUF_SIZE 98)) =
      0 :: ([1, 2, 3, 4] ++ ([7, 8] ++ (1 :: ([97] ++ (List.replicate BUF_SIZE 98 ++ [10]))))) := by
    simp [encode, cstr, MSG_TYPE_CHAT]
  have hnom : (10 : Nat) ∉ List.replicate BUF_SIZE 98 := by
    intro hmem
    have := List.eq_of_mem_replicate hmem
    omega
  have hh := @readHeader_encode [1, 2, 3, 4] [7, 8] [97]
    (List.replicate BUF_SIZE 98 ++ [10]) rfl rfl (by decide) (by decide)
  simp only [List.length_singleton] at hh
  have hmsg := @readMsg_append (List.replicate BUF_SIZE 98) [] hnom 0
  rw [Nat.sub_zero] at hmsg
  have hdec : decode (encode (Frame.chat [1, 2, 3, 4] [7, 8] [97] (List.replicate BUF_SIZE 98))) =
      some (Frame.chat [1, 2, 3, 4] [7, 8] [97]
        ((List.replicate BUF_SIZE 98).take (BUF_SIZE - 1))) := by
    rw [henc, decode_chat_cons]
    simp only [hh, hmsg]
  rw [hdec]
  intro hcontra
  have hlen := congrArg (fun o : Option Frame =>
    match o with
    | some (Frame.chat _ _ _ m) => m.length
    | _ => 0) hcontra
  simp only [List.length_take, List.length_replicate] at hlen
  unfold BUF_SIZE at hlen
  omega

/-- C3 as amended: for every constructible frame of the four kinds
(username length 1–31, chat message free of `\n`) whose chat message is
also at most 1023 bytes, decoding the encoding recovers the frame
exactly: type, ip, port, username, and message all round-trip. -/
theorem c3_amended (f : Frame) (hwf : wfFrame f) (hfit : msgFits f) :
    decode (encode f) = some f := by
  cases f with
  | chat ip port u m =>
    obtain ⟨h4, h2, hu1, hu31, hu0, hm10⟩ := hwf
    have hfit2 : m.length ≤ BUF_SIZE - 1 := hfit
    have henc : encode (.chat ip port u m) =
        0 :: (ip ++ (port ++ (u.length :: (u ++ (m ++ [10]))))) := by
      simp [encode, cstr_eq_self hu0, MSG_TYPE_CHAT]
    have hh := readHeader_encode (m ++ [10]) h4 h2 hu1 hu31
    have hmsg : readMsg (m ++ [10]) 0 = some m := by
      have h0 := @readMsg_append m [] hm10 0
      rw [Nat.sub_zero, List.take_of_length_le hfit2] at h0
      exact h0
    rw [henc, decode_chat_cons]
    simp only [hh, hmsg]
  | join ip port u =>
    obtain ⟨h4, h2, hu1, hu31, hu0⟩ := hwf
    have henc : encode (.join ip port u) =
        2 :: (ip ++ (port ++ (u.length :: (u ++ [10])))) := by
      simp [encode, cstr_eq_self hu0, MSG_TYPE_JOIN]
    have hh := readHeader_encode [10] h4 h2 hu1 hu31
    rw [henc, decode_join_cons]
    simp only [hh]
  | disconnect ip port u =>
    obtain ⟨h4, h2, hu1, hu31, hu0⟩ := hwf
    have henc : encode (.disconnect ip port u) =
        1 :: (ip ++ (port ++ (u.length :: (u ++ [10])))) := by
      simp [encode, cstr_eq_self hu0, MSG_TYPE_DISCONNECT]
    have hh := readHeader_encode [10] h4 h2 hu1 hu31
    rw [henc, decode_disconnect_cons]
    simp only [hh]
  | usernameReg u =>
    obtain ⟨hu1, hu31, hu0⟩ := hwf
    have henc : encode (.usernameReg u) = 3 :: (u.length :: (u ++ [10])) := by
      simp [encode, cstr_eq_self hu0, MSG_TYPE_USERNAME]
    rw [henc, decode_username_cons]
    have hlen : (3 :: (u.length :: (u ++ [10]))).length = u.length + 3 := by
      simp [List.length_append]
    rw [hlen]
    rw [if_pos (show 2 < u.length + 3 by omega)]
    show (if 0 < u.length ∧ u.length < MAX_USERNAME_LEN ∧ 2 + u.length ≤ u.length + 3 then
        some (Frame.usernameReg ((u ++ [10]).take u.length))
      else none) = some (Frame.usernameReg u)
    rw [if_pos ⟨by omega, by unfold MAX_USERNAME_LEN; omega, by omega⟩]
    rw [List.take_left]

/-- Witness for C3 (amended): a chat frame with username "a" and message
"hi" round-trips through encode/decode. -/
theorem c3_amended_witness :
    decode (encode (Frame.chat [1, 2, 3, 4] [7, 8] [97] [104, 105])) =
      some (Frame.chat [1, 2, 3, 4] [7, 8] [97] [104, 105]) :=
  c3_amended _ ⟨rfl, rfl, by decide, by decide, by decide, by decide⟩
    (by exact (by decide : ([104, 105] : Bytes).length ≤ BUF_SIZE - 1))

/-! ## C1: register-then-chat scenario -/

/-- One readiness event whose bytes fit in the remaining buffer space
reduces `handle_client_data` to the frame-extraction loop on the
appended buffer. -/
theorem handle_client_data_eq (clients : List Client) (i : Nat) (cli : Client)
    (data : Bytes) (h : clients[i]? = some cli) (hfd : cli.fd ≠ -1)
    (hlen : 0 < data.length) (hfit : cli.buf.length + data.length ≤ BUF_SIZE) :
    handle_client_data clients i data =
      process_loop (clients.set i { cli with buf := cli.buf ++ data }) i
        ((cli.buf ++ data).length + 1) := by
  unfold handle_client_data
  rw [h]
  have htake : data.take (BUF_SIZE - cli.buf.length) = data :=
    List.take_of_length_le (by omega)
  simp only [hfd, if_neg, not_false_eq_true, htake, hlen, if_pos]

/-- The successful-registration branch of `process_message`. -/
theorem register_step (clients : List Client) (i : Nat) (cli : Client)
    (msgLen ulen : Nat) (h : clients[i]? = some cli) (hunreg : cli.hasUsername = false)
    (hhead : cli.buf.headD 0 = MSG_TYPE_USERNAME)
    (hulen : (cli.buf[1]?).getD 0 = ulen)
    (hm2 : 2 < msgLen) (h0 : 0 < ulen) (h32 : ulen < MAX_USERNAME_LEN)
    (hfits : 2 + ulen ≤ msgLen) :
    process_message clients i msgLen =
      (clients.set i { cli with username := (cli.buf.drop 2).take ulen, hasUsername := true },
       broadcast_message
         (clients.set i { cli with username := (cli.buf.drop 2).take ulen, hasUsername := true })
         (joinBytes { cli with username := (cli.buf.drop 2).take ulen, hasUsername := true })) := by
  unfold process_message
  rw [h]
  simp only [hhead, hunreg, hulen]
  rw [if_pos ⟨trivial, trivial⟩, if_pos hm2, if_pos ⟨h0, h32, hfits⟩]

/-- The chat branch of `process_message`: re-stamp and broadcast, table
unchanged. -/
theorem chat_step (clients : List Client) (i : Nat) (cli : Client) (msgLen : Nat)
    (h : clients[i]? = some cli) (hreg : cli.hasUsername = true)
    (hhead : cli.buf.headD 0 = MSG_TYPE_CHAT) :
    process_message clients i msgLen =
      (clients, broadcast_message clients
        (chatBytes cli ((cli.buf.drop 1).take (msgLen - 1)))) := by
  unfold process_message
  rw [h]
  simp only [List.headD_eq_head?_getD] at hhead
  simp [hhead, hreg, MSG_TYPE_CHAT, MSG_TYPE_USERNAME]

/-- The C1 scenario byte burst: register "alice" (`\x03\x05alice\n`)
followed by chat "hello" (`\x00hello\n`). -/
def c1data : Bytes := [3, 5, 97, 108, 105, 99, 101, 10, 0, 104, 101, 108, 108, 111, 10]

theorem broadcast_message_eq {msg : Bytes} (l : List Client) (h : msg.length ≠ 0) :
    broadcast_message l msg = broadcastGo msg l 0 := by
  unfold broadcast_message
  rw [if_neg h]

/-- `process_loop` on a closed slot does nothing: once a session is
closed, no further frames are processed. -/
theorem process_loop_closed (clients : List Client) (i : Nat) (cli : Client)
    (fuel : Nat) (h : clients[i]? = some cli) (hfd : cli.fd = -1) :
    process_loop clients i fuel = (clients, [], []) := by
  cases fuel with
  | zero => rfl
  | succ n =>
    rw [process_loop]
    simp [h, hfd]

/-- `process_loop` with no newline and a non-full buffer waits for more
bytes. -/
theorem process_loop_stop (clients : List Client) (i : Nat) (cli : Client)
    (fuel : Nat) (h : clients[i]? = some cli) (hfd : cli.fd ≠ -1)
    (hfn : findNewline cli.buf = none) (hlen : cli.buf.length ≠ BUF_SIZE) :
    process_loop clients i (fuel + 1) = (clients, [], []) := by
  rw [process_loop]
  simp [h, hfd, hfn, hlen]

/-- One productive iteration of `process_loop`: a complete frame is
extracted at index `idx`, `process_message` updates slot `i` to a
still-open client `cliNew`, the frame is dropped from the buffer, and
the loop continues. -/
theorem process_loop_step_keep (clients clients2 : List Client) (i : Nat) (cli cliNew : Client)
    (fuel idx : Nat) (sends : List (Nat × Bytes))
    (h : clients[i]? = some cli) (hi : i < clients.length) (hfd : cli.fd ≠ -1)
    (hfn : findNewline cli.buf = some idx)
    (hpm : process_message clients i (idx + 1) = (clients.set i cliNew, sends))
    (hNewFd : cliNew.fd ≠ -1)
    (h2 : clients.set i { cliNew with buf := cliNew.buf.drop (idx + 1) } = clients2)
    (sends2 : List (Nat × Bytes)) (hs : sends = sends2) :
    process_loop clients i (fuel + 1) =
      ((process_loop clients2 i fuel).1,
       sends2 ++ (process_loop clients2 i fuel).2.1,
       cli.buf.take (idx + 1) :: (process_loop clients2 i fuel).2.2) := by
  subst h2
  subst hs
  rw [process_loop]
  simp only [h, hfd, if_neg, not_false_eq_true, hfn, hpm, List.getElem?_set_self hi,
    hNewFd, List.set_set]

/-- One chat-frame iteration of `process_loop`: the chat is broadcast,
the table is unchanged, the frame is dropped, the loop continues. -/
theorem process_loop_chat_step (clients clients2 : List Client) (i : Nat) (cli : Client)
    (fuel idx : Nat) (h : clients[i]? = some cli) (hi : i < clients.length)
    (hfd : cli.fd ≠ -1) (hreg : cli.hasUsername = true)
    (hhead : cli.buf.headD 0 = MSG_TYPE_CHAT)
    (hfn : findNewline cli.buf = some idx)
    (h2 : clients.set i { cli with buf := cli.buf.drop (idx + 1) } = clients2) :
    process_loop clients i (fuel + 1) =
      ((process_loop clients2 i fuel).1,
       broadcast_message clients (chatBytes cli ((cli.buf.drop 1).take idx)) ++
         (process_loop clients2 i fuel).2.1,
       cli.buf.take (idx + 1) :: (process_loop clients2 i fuel).2.2) := by
  have hpm : process_message clients i (idx + 1) =
      (clients.set i cli,
       broadcast_message clients (chatBytes cli ((cli.buf.drop 1).take idx))) := by
    rw [set_self _ _ _ h]
    have hc := chat_step clients i cli (idx + 1) h hreg hhead
    simpa [Nat.add_sub_cancel] using hc
  exact process_loop_step_keep clients clients2 i cli cli fuel idx _ h hi hfd hfn hpm hfd h2 _ rfl

/-- The sender's session right after registering "alice" with the whole
burst still buffered. -/
def regAliceA (c : Client) : Client :=
  { c with buf := c1data, username := [97, 108, 105, 99, 101], hasUsername := true }

/-- The sender's session after the register frame has been consumed. -/
def regAliceB (c : Client) : Client :=
  { c with buf := [0, 104, 101, 108, 108, 111, 10], username := [97, 108, 105, 99, 101], hasUsername := true }

/-- C1: a connected, unregistered session delivering the register-alice
then chat-hello burst causes every other connected registered session
`j` to receive, in order, the Join frame
`[2][ip:4][port:2][5]["alice"][\n]` and then the Chat frame
`[0][ip:4][port:2][5]["alice"]["hello"][\n]`. -/
theorem c1_register_then_chat (clients : List Client) (i j : Nat) (cli cj : Client)
    (hcli : clients[i]? = some cli) (hfd : cli.fd > 0) (hunreg : cli.hasUsername = false)
    (hbuf : cli.buf = []) (hip : cli.addrIp.length = 4) (hport : cli.addrPort.length = 2)
    (hj : clients[j]? = some cj) (hji : j ≠ i) (hjfd : cj.fd > 0) (hjne : cj.fd ≠ -1)
    (hjreg : cj.hasUsername = true) :
    List.Sublist
      [(j, [MSG_TYPE_JOIN] ++ cli.addrIp ++ cli.addrPort ++ [5] ++ [97, 108, 105, 99, 101] ++ [10]),
       (j, [MSG_TYPE_CHAT] ++ cli.addrIp ++ cli.addrPort ++ [5] ++ [97, 108, 105, 99, 101] ++
          [104, 101, 108, 108, 111, 10])]
      (handle_client_data clients i c1data).2.1 := by
  obtain ⟨hi, -⟩ := List.getElem?_eq_some_iff.mp hcli
  have hfdne : cli.fd ≠ -1 := by intro hc; rw [hc] at hfd; omega
  have hA : handle_client_data clients i c1data =
      process_loop (clients.set i { cli with buf := c1data }) i (c1data.length + 1) := by
    have h0 := handle_client_data_eq clients i cli c1data hcli hfdne (by decide)
      (by rw [hbuf]; decide)
    rw [hbuf] at h0
    simpa using h0
  have hiA : (clients.set i { cli with buf := c1data })[i]? =
      some { cli with buf := c1data } := List.getElem?_set_self hi
  have hpm1 := register_step (clients.set i { cli with buf := c1data }) i
    { cli with buf := c1data } (7 + 1) 5 hiA hunreg rfl rfl (by decide) (by decide)
    (by decide) (by decide)
  have hrun : (handle_client_data clients i c1data).2.1 =
      broadcast_message (clients.set i (regAliceA cli)) (joinBytes (regAliceA cli)) ++
      (broadcast_message (clients.set i (regAliceB cli))
        (chatBytes (regAliceB cli) [104, 101, 108, 108, 111, 10]) ++ []) := by
    rw [hA]
    rw [show c1data.length + 1 = 15 + 1 from rfl]
    rw [process_loop_step_keep _ (clients.set i (regAliceB cli)) _ _ _ 15 7 _ hiA
      (by simpa using hi) hfdne rfl hpm1 hfdne (by rw [List.set_set]; rfl)
      (broadcast_message (clients.set i (regAliceA cli)) (joinBytes (regAliceA cli)))
      (by rw [List.set_set]; rfl)]
    rw [show (15 : Nat) = 14 + 1 from rfl]
    rw [process_loop_chat_step (clients.set i (regAliceB cli))
      (clients.set i { cli with buf := [], username := [97, 108, 105, 99, 101], hasUsername := true })
      i (regAliceB cli) 14 6 (List.getElem?_set_self hi) (by simpa using hi)
      hfdne rfl rfl rfl (by rw [List.set_set]; rfl)]
    rw [show (14 : Nat) = 13 + 1 from rfl]
    rw [process_loop_stop
      (clients.set i { cli with buf := [], username := [97, 108, 105, 99, 101], hasUsername := true })
      i { cli with buf := [], username := [97, 108, 105, 99, 101], hasUsername := true } 13
      (List.getElem?_set_self hi) hfdne rfl (by simp [BUF_SIZE])]
    rfl
  rw [hrun]
  have hcond : sendCond cj = true := by simp [sendCond, hjne, hjfd]
  have hjsetA : (clients.set i (regAliceA cli))[j]? = some cj := by
    rw [List.getElem?_set_ne (Ne.symm hji)]
    exact hj
  have hjsetB : (clients.set i (regAliceB cli))[j]? = some cj := by
    rw [List.getElem?_set_ne (Ne.symm hji)]
    exact hj
  have hjoin : (j, joinBytes (regAliceA cli)) ∈
      broadcast_message (clients.set i (regAliceA cli)) (joinBytes (regAliceA cli)) := by
    rw [broadcast_message_eq _ (by
      simp only [joinBytes, List.length_append, List.length_cons, List.length_nil]
      omega)]
    simpa using mem_broadcastGo_intro hjsetA hcond 0
  have hchatm : (j, chatBytes (regAliceB cli) [104, 101, 108, 108, 111, 10]) ∈
      broadcast_message (clients.set i (regAliceB cli))
        (chatBytes (regAliceB cli) [104, 101, 108, 108, 111, 10]) := by
    rw [broadcast_message_eq _ (by
      simp only [chatBytes, List.length_append, List.length_cons, List.length_nil]
      omega)]
    simpa using mem_broadcastGo_intro hjsetB hcond 0
  have h1 := List.singleton_sublist.mpr hjoin
  have h2 : List.Sublist [(j, chatBytes (regAliceB cli) [104, 101, 108, 108, 111, 10])]
      (broadcast_message (clients.set i (regAliceB cli))
        (chatBytes (regAliceB cli) [104, 101, 108, 108, 111, 10]) ++ []) := by
    rw [List.append_nil]
    exact List.singleton_sublist.mpr hchatm
  exact List.Sublist.append h1 h2

/-- Witness for C1: on a concrete two-session table (slot 0 fresh, slot
1 registered "bob"), slot 1 receives the alice Join frame then the
alice/hello Chat frame, in order. -/
theorem c1_witness :
    List.Sublist
      [(1, [2, 1, 2, 3, 4, 7, 8, 5, 97, 108, 105, 99, 101, 10]),
       (1, [0, 1, 2, 3, 4, 7, 8, 5, 97, 108, 105, 99, 101, 104, 101, 108, 108, 111, 10])]
      (handle_client_data [fixOpen, fixBob] 0 c1data).2.1 :=
  c1_register_then_chat [fixOpen, fixBob] 0 1 fixOpen fixBob rfl (by decide) rfl rfl rfl rfl
    rfl (by decide) (by decide) (by decide) rfl

/-! ## C2: fragmentation invariance of frame assembly -/

theorem take_append_le {α : Type} {l1 l2 : List α} {n : Nat} (h : n ≤ l1.length) :
    (l1 ++ l2).take n = l1.take n := by
  induction l1 generalizing n with
  | nil =>
    have hn : n = 0 := by simpa using h
    simp [hn]
  | cons x xs ih =>
    cases n with
    | zero => simp
    | succ k =>
      simp only [List.cons_append, List.take_succ_cons]
      rw [ih (by simpa using h)]

/-- A proper prefix of a frame `m ++ [10]` (with `10 ∉ m`) contains no
newline and is at most `m` long. -/
theorem prefix_of_frame {p t m : Bytes} (heq : p ++ t = m ++ [10]) (ht : t ≠ [])
    (hm : (10 : Nat) ∉ m) : (10 : Nat) ∉ p ∧ p.length ≤ m.length := by
  have hlen : p.length + t.length = m.length + 1 := by
    have := congrArg List.length heq
    simpa [List.length_append] using this
  have ht1 : 1 ≤ t.length := by
    cases t with
    | nil => exact absurd rfl ht
    | cons a b => simp
  have hple : p.length ≤ m.length := by omega
  have hp : p = (m ++ [10]).take p.length := by
    rw [← heq, List.take_left]
  constructor
  · intro hmem
    rw [hp, take_append_le hple] at hmem
    exact hm (List.take_subset _ _ hmem)
  · exact hple

/-- Nonempty chunks flatten to a nonempty stream. -/
theorem flatten_ne_nil {chunks : List Bytes} (h0 : chunks ≠ [])
    (hne : ∀ c ∈ chunks, c ≠ []) : chunks.flatten ≠ [] := by
  cases chunks with
  | nil => exact absurd rfl h0
  | cons c rest =>
    have hc : c ≠ [] := hne c (by simp)
    simp only [List.flatten_cons]
    intro hcontra
    rcases List.append_eq_nil.mp hcontra with ⟨h1, -⟩
    exact hc h1

/-- Definitional reduction of `process_message` at an occupied slot. -/
theorem process_message_cons (clients : List Client) (i msgLen : Nat) (cli : Client)
    (h : clients[i]? = some cli) :
    process_message clients i msgLen =
      (if cli.buf.headD 0 = MSG_TYPE_USERNAME ∧ cli.hasUsername = false then
        if 2 < msgLen then
          if 0 < (cli.buf[1]?).getD 0 ∧ (cli.buf[1]?).getD 0 < MAX_USERNAME_LEN ∧ 2 + (cli.buf[1]?).getD 0 ≤ msgLen then
            (clients.set i { cli with username := (cli.buf.drop 2).take ((cli.buf[1]?).getD 0), hasUsername := true },
             broadcast_message (clients.set i { cli with username := (cli.buf.drop 2).take ((cli.buf[1]?).getD 0), hasUsername := true }) (joinBytes { cli with username := (cli.buf.drop 2).take ((cli.buf[1]?).getD 0), hasUsername := true }))
          else (clients, [])
        else (clients, [])
      else if cli.buf.headD 0 = MSG_TYPE_CHAT ∧ cli.hasUsername = true then
        (clients, broadcast_message clients (chatBytes cli ((cli.buf.drop 1).take (msgLen - 1))))
      else if cli.buf.headD 0 = MSG_TYPE_DISCONNECT then
        remove_client clients i
      else (clients, [])) := by
  unfold process_message
  rw [h]

/-- Definitional reduction of `remove_client` at an open slot. -/
theorem remove_client_cons (clients : List Client) (i : Nat) (cli : Client)
    (h : clients[i]? = some cli) (hfd : cli.fd ≠ -1) :
    remove_client clients i =
      (clients.set i { cli with fd := -1, buf := [], hasUsername := false },
       if cli.hasUsername then
         broadcast_message (clients.set i { cli with fd := -1, buf := [], hasUsername := false }) (disconnectBytes cli.addrIp cli.addrPort cli.username)
       else []) := by
  unfold remove_client
  rw [h]
  simp only [hfd, if_neg, not_false_eq_true]
  by_cases h6 : cli.hasUsername
  · simp [h6]
  · simp [h6]

/-- `process_message` either keeps slot `i`'s socket and buffer intact
or closes the slot (empty buffer, no username); no other slot changes. -/
theorem process_message_shape (clients : List Client) (i : Nat) (cli : Client)
    (msgLen : Nat) (h : clients[i]? = some cli) (hfd : cli.fd ≠ -1) :
    ∃ cli' sends, process_message clients i msgLen = (clients.set i cli', sends) ∧
      ((cli'.fd = -1 ∧ cli'.buf = [] ∧ cli'.hasUsername = false) ∨
       (cli'.fd = cli.fd ∧ cli'.buf = cli.buf)) := by
  have hself : clients.set i cli = clients := set_self _ _ _ h
  rw [process_message_cons clients i msgLen cli h]
  by_cases h1 : cli.buf.headD 0 = MSG_TYPE_USERNAME ∧ cli.hasUsername = false
  · rw [if_pos h1]
    by_cases h2 : 2 < msgLen
    · rw [if_pos h2]
      by_cases h3 : 0 < (cli.buf[1]?).getD 0 ∧ (cli.buf[1]?).getD 0 < MAX_USERNAME_LEN ∧
          2 + (cli.buf[1]?).getD 0 ≤ msgLen
      · rw [if_pos h3]
        exact ⟨_, _, rfl, Or.inr ⟨rfl, rfl⟩⟩
      · rw [if_neg h3]
        exact ⟨cli, [], by rw [hself], Or.inr ⟨rfl, rfl⟩⟩
    · rw [if_neg h2]
      exact ⟨cli, [], by rw [hself], Or.inr ⟨rfl, rfl⟩⟩
  · rw [if_neg h1]
    by_cases h4 : cli.buf.headD 0 = MSG_TYPE_CHAT ∧ cli.hasUsername = true
    · rw [if_pos h4]
      exact ⟨cli, _, by rw [hself], Or.inr ⟨rfl, rfl⟩⟩
    · rw [if_neg h4]
      by_cases h5 : cli.buf.headD 0 = MSG_TYPE_DISCONNECT
      · rw [if_pos h5]
        rw [remove_client_cons clients i cli h hfd]
        exact ⟨_, _, rfl, Or.inl ⟨rfl, rfl, rfl⟩⟩
      · rw [if_neg h5]
        exact ⟨cli, [], by rw [hself], Or.inr ⟨rfl, rfl⟩⟩

/-- One frame iteration after which the slot is closed: the frame is
still recorded, then the loop stops. -/
theorem process_loop_step_close (clients : List Client) (i : Nat) (cli cliNew : Client)
    (fuel idx : Nat) (sends : List (Nat × Bytes))
    (h : clients[i]? = some cli) (hi : i < clients.length) (hfd : cli.fd ≠ -1)
    (hfn : findNewline cli.buf = some idx)
    (hpm : process_message clients i (idx + 1) = (clients.set i cliNew, sends))
    (hNewFd : cliNew.fd = -1) :
    process_loop clients i (fuel + 1) =
      (clients.set i cliNew, sends, [cli.buf.take (idx + 1)]) := by
  rw [process_loop]
  simp only [h, hfd, if_neg, not_false_eq_true, hfn, hpm, List.getElem?_set_self hi, hNewFd,
    if_pos]

/-- Buffer full with no newline: the loop tears the session down,
extracting no frame. -/
theorem process_loop_overflow (clients : List Client) (i : Nat) (cli : Client)
    (fuel : Nat) (h : clients[i]? = some cli) (hfd : cli.fd ≠ -1)
    (hfn : findNewline cli.buf = none) (hlen : cli.buf.length = BUF_SIZE) :
    process_loop clients i (fuel + 1) =
      ((remove_client clients i).1, (remove_client clients i).2, []) := by
  rw [process_loop]
  simp only [h, hfd, if_neg, not_false_eq_true, hfn, hlen, if_pos]

/-- `handle_client_data` on a closed slot does nothing. -/
theorem handle_client_data_closed (clients : List Client) (i : Nat) (cli : Client)
    (data : Bytes) (h : clients[i]? = some cli) (hfd : cli.fd = -1) :
    handle_client_data clients i data = (clients, [], []) := by
  unfold handle_client_data
  rw [h]
  simp [hfd]

/-- Induction core for C2: with prefix `p` of the frame already
buffered, feeding the remaining nonempty chunks extracts exactly the
frame `m ++ [10]`. -/
theorem c2_aux (m : Bytes) (hm10 : (10 : Nat) ∉ m) (hml : m.length + 1 ≤ BUF_SIZE) :
    ∀ (chunks : List Bytes) (clients : List Client) (i : Nat) (cli : Client) (p : Bytes),
      clients[i]? = some cli → cli.fd ≠ -1 → cli.buf = p →
      chunks ≠ [] → (∀ c ∈ chunks, c ≠ []) → p ++ chunks.flatten = m ++ [10] →
      (feed_chunks clients i chunks).2.2 = [m ++ [10]] := by
  intro chunks
  induction chunks with
  | nil => intro _ _ _ _ _ _ _ h0 _ _; exact absurd rfl h0
  | cons c rest ih =>
    intro clients i cli p hcli hfd hbuf _ hne hflat
    obtain ⟨hi, -⟩ := List.getElem?_eq_some_iff.mp hcli
    have hc : c ≠ [] := hne c (by simp)
    have hclen : 0 < c.length := List.length_pos.mpr hc
    simp only [List.flatten_cons] at hflat
    have hflat' : (p ++ c) ++ rest.flatten = m ++ [10] := by
      rw [List.append_assoc]; exact hflat
    by_cases hrestnil : rest = []
    · subst hrestnil
      have hpc : p ++ c = m ++ [10] := by simpa using hflat'
      have hfit : cli.buf.length + c.length ≤ BUF_SIZE := by
        have := congrArg List.length hpc
        simp only [List.length_append, List.length_cons, List.length_nil] at this
        rw [hbuf]
        omega
      have hstep := handle_client_data_eq clients i cli c hcli hfd hclen hfit
      rw [hbuf] at hstep
      rw [hpc] at hstep
      have hiS : (clients.set i { cli with buf := m ++ [10] })[i]? =
          some { cli with buf := m ++ [10] } := List.getElem?_set_self hi
      obtain ⟨cli', sends, hpm, hcases⟩ := process_message_shape
        (clients.set i { cli with buf := m ++ [10] }) i { cli with buf := m ++ [10] }
        (m.length + 1) hiS hfd
      have hfn : findNewline ({ cli with buf := m ++ [10] } : Client).buf = some m.length := by
        show findNewline (m ++ [10]) = some m.length
        exact findNewline_append hm10
      have htake : ({ cli with buf := m ++ [10] } : Client).buf.take (m.length + 1) =
          m ++ [10] := by
        show (m ++ [10]).take (m.length + 1) = m ++ [10]
        exact List.take_of_length_le (by simp [List.length_append])
      have hfuel : (m ++ [10]).length + 1 = m.length + 1 + 1 := by
        simp [List.length_append]
      rcases hcases with ⟨hcfd, -, -⟩ | ⟨hcfd, hcbuf⟩
      · have hloop := process_loop_step_close (clients.set i { cli with buf := m ++ [10] }) i
          { cli with buf := m ++ [10] } cli' (m.length + 1) m.length sends hiS
          (by simpa using hi) hfd hfn hpm hcfd
        show ((feed_chunks clients i [c])).2.2 = [m ++ [10]]
        simp only [feed_chunks, hstep, hfuel, hloop, htake, List.append_nil, List.nil_append]
      · have hloop := process_loop_step_keep (clients.set i { cli with buf := m ++ [10] })
          ((clients.set i { cli with buf := m ++ [10] }).set i
            { cli' with buf := cli'.buf.drop (m.length + 1) })
          i { cli with buf := m ++ [10] } cli' (m.length + 1) m.length sends hiS
          (by simpa using hi) hfd hfn hpm (by rw [hcfd]; exact hfd) rfl sends rfl
        have hbufdrop : cli'.buf.drop (m.length + 1) = [] := by
          rw [hcbuf]
          show (m ++ [10]).drop (m.length + 1) = []
          exact List.drop_eq_nil_of_le (by simp [List.length_append])
        have hstop := process_loop_stop
          ((clients.set i { cli with buf := m ++ [10] }).set i
            { cli' with buf := cli'.buf.drop (m.length + 1) })
          i { cli' with buf := cli'.buf.drop (m.length + 1) } m.length
          (List.getElem?_set_self (by simpa using hi))
          (by show cli'.fd ≠ -1; rw [hcfd]; exact hfd)
          (by show findNewline (cli'.buf.drop (m.length + 1)) = none
              rw [hbufdrop]; rfl)
          (by show (cli'.buf.drop (m.length + 1)).length ≠ BUF_SIZE
              rw [hbufdrop]
              simp [BUF_SIZE])
        show ((feed_chunks clients i [c])).2.2 = [m ++ [10]]
        simp only [feed_chunks, hstep, hfuel, hloop, hstop, htake, List.append_nil,
          List.nil_append]
    · have hrestne : rest ≠ [] := hrestnil
      have hfne : rest.flatten ≠ [] := flatten_ne_nil hrestne (by
        intro x hx
        exact hne x (by simp [hx]))
      obtain ⟨hno10, hple⟩ := prefix_of_frame hflat' hfne hm10
      have hfit : cli.buf.length + c.length ≤ BUF_SIZE := by
        have : (p ++ c).length ≤ m.length := hple
        simp only [List.length_append] at this
        rw [hbuf]
        omega
      have hstep := handle_client_data_eq clients i cli c hcli hfd hclen hfit
      rw [hbuf] at hstep
      have hiS : (clients.set i { cli with buf := p ++ c })[i]? =
          some { cli with buf := p ++ c } := List.getElem?_set_self hi
      have hplen : (p ++ c).length ≠ BUF_SIZE := by
        have : (p ++ c).length ≤ m.length := hple
        unfold BUF_SIZE at hml ⊢
        omega
      have hwait := process_loop_stop (clients.set i { cli with buf := p ++ c }) i
        { cli with buf := p ++ c } (p ++ c).length hiS hfd
        (by show findNewline (p ++ c) = none; exact findNewline_eq_none hno10) hplen
      have hIH := ih (clients.set i { cli with buf := p ++ c }) i
        { cli with buf := p ++ c } (p ++ c) hiS hfd rfl hrestne
        (fun x hx => hne x (by simp [hx])) hflat'
      show (feed_chunks clients i (c :: rest)).2.2 = [m ++ [10]]
      simp only [feed_chunks, hstep, hwait, hIH, List.append_nil, List.nil_append]
  
/-- Counterexample for C2: the byte sequence of 1024 `a`s followed by
`\n` is one complete newline-terminated frame, split into two nonempty
chunks; the connection buffer fills to capacity before the terminator
arrives, the session is torn down, and zero frames are produced instead
of one. -/
theorem c2_counterexample :
    (∀ c ∈ [List.replicate BUF_SIZE 97, ([10] : Bytes)], c ≠ []) ∧
    ([List.replicate BUF_SIZE 97, ([10] : Bytes)] : List Bytes).flatten =
      List.replicate BUF_SIZE 97 ++ [10] ∧
    (10 : Nat) ∉ List.replicate BUF_SIZE 97 ∧
    (feed_chunks [fixOpen] 0 [List.replicate BUF_SIZE 97, [10]]).2.2 = [] := by
  have hnom : (10 : Nat) ∉ List.replicate BUF_SIZE 97 := by
    intro hmem
    have := List.eq_of_mem_replicate hmem
    omega
  refine ⟨?_, ?_, hnom, ?_⟩
  · intro c hc
    simp only [List.mem_cons, List.not_mem_nil, or_false] at hc
    rcases hc with rfl | rfl
    · exact List.ne_nil_of_length_pos (by rw [List.length_replicate]; decide)
    · simp
  · simp
  · have h0 := handle_client_data_eq [fixOpen] 0 fixOpen (List.replicate BUF_SIZE 97) rfl
      (by decide) (by rw [List.length_replicate]; decide)
      (by
        show fixOpen.buf.length + (List.replicate BUF_SIZE 97).length ≤ BUF_SIZE
        rw [List.length_replicate]
        simp [fixOpen])
    simp only [show fixOpen.buf = ([] : Bytes) from rfl, List.nil_append] at h0
    have hov := process_loop_overflow
      ([fixOpen].set 0 { fixOpen with buf := List.replicate BUF_SIZE 97 }) 0
      { fixOpen with buf := List.replicate BUF_SIZE 97 } (List.replicate BUF_SIZE 97).length
      (List.getElem?_set_self (by decide)) (by decide)
      (by
        show findNewline (List.replicate BUF_SIZE 97) = none
        exact findNewline_eq_none hnom)
      (by
        show (List.replicate BUF_SIZE 97).length = BUF_SIZE
        rw [List.length_replicate])
    have hrcf := @remove_client_fst
      ([fixOpen].set 0 { fixOpen with buf := List.replicate BUF_SIZE 97 }) 0
      { fixOpen with buf := List.replicate BUF_SIZE 97 }
      (List.getElem?_set_self (by decide)) (by decide)
    have hclosed := handle_client_data_closed
      ((remove_client ([fixOpen].set 0 { fixOpen with buf := List.replicate BUF_SIZE 97 }) 0).1)
      0 { fixOpen with fd := -1, buf := [], hasUsername := false } [10]
      (by rw [hrcf]; rfl) rfl
    show (feed_chunks [fixOpen] 0 [List.replicate BUF_SIZE 97, [10]]).2.2 = []
    simp only [feed_chunks, h0, hov, hclosed, List.append_nil, List.nil_append]

/-- C2 as amended: for every complete newline-terminated frame of at
most `BUF_SIZE = 1024` bytes (`m ++ [\n]` with no `\n` in `m`), and for
every split of it into nonempty chunks delivered by successive reads to
a fresh connected session, the assembly produces exactly one frame, and
the extracted frame bytes are identical — the whole sequence — for
every split. -/
theorem c2_amended (clients : List Client) (i : Nat) (cli : Client) (m : Bytes)
    (chunks : List Bytes) (hcli : clients[i]? = some cli) (hfd : cli.fd ≠ -1)
    (hbuf : cli.buf = []) (hm10 : (10 : Nat) ∉ m) (hml : m.length + 1 ≤ BUF_SIZE)
    (hchunks : chunks ≠ []) (hne : ∀ c ∈ chunks, c ≠ [])
    (hflat : chunks.flatten = m ++ [10]) :
    (feed_chunks clients i chunks).2.2 = [m ++ [10]] :=
  c2_aux m hm10 hml chunks clients i cli [] hcli hfd hbuf hchunks hne (by simpa using hflat)

/-- Witness for C2 (amended): the register-alice frame arrives in two
fragments and is reassembled into exactly the single full frame. -/
theorem c2_amended_witness :
    (feed_chunks [fixOpen] 0 [[3, 5, 97], [108, 105, 99, 101, 10]]).2.2 =
      [[3, 5, 97, 108, 105, 99, 101, 10]] :=
  c2_amended [fixOpen] 0 fixOpen [3, 5, 97, 108, 105, 99, 101]
    [[3, 5, 97], [108, 105, 99, 101, 10]] rfl (by decide) rfl (by decide) (by decide)
    (by decide) (by decide) (by decide)

/-! ## C10: table invariants -/

/-- The per-slot invariant: buffer bounded by `BUF_SIZE`, and an empty
slot (`fd = -1`) has an empty buffer and no username set. -/
def slotInv (c : Client) : Prop :=
  c.buf.length ≤ BUF_SIZE ∧ (c.fd = -1 → c.buf = [] ∧ c.hasUsername = false)

/-- The whole-table invariant. -/
def tableInv (clients : List Client) : Prop := ∀ c ∈ clients, slotInv c

theorem tableInv_set {clients : List Client} {i : Nat} {c : Client}
    (hinv : tableInv clients) (hc : slotInv c) : tableInv (clients.set i c) := by
  intro x hx
  rcases List.mem_or_eq_of_mem_set hx with hx' | rfl
  · exact hinv x hx'
  · exact hc

theorem slotInv_closed (c : Client) :
    slotInv { c with fd := -1, buf := [], hasUsername := false } := by
  constructor
  · simp [BUF_SIZE]
  · intro
    exact ⟨rfl, rfl⟩

theorem tableInv_process_loop (fuel : Nat) :
    ∀ (clients : List Client) (i : Nat), tableInv clients →
      tableInv (process_loop clients i fuel).1 := by
  induction fuel with
  | zero => intro clients i hinv; exact hinv
  | succ n ih =>
    intro clients i hinv
    rw [process_loop]
    cases hg : clients[i]? with
    | none => exact hinv
    | some cli =>
      obtain ⟨hi, -⟩ := List.getElem?_eq_some_iff.mp hg
      have hmem : cli ∈ clients := List.getElem?_mem hg
      have hbufle : cli.buf.length ≤ BUF_SIZE := (hinv cli hmem).1
      by_cases hfd : cli.fd = -1
      · simp only [hfd, if_pos]
        exact hinv
      · simp only [hfd, if_neg, not_false_eq_true]
        cases hfn : findNewline cli.buf with
        | none =>
          by_cases hlen : cli.buf.length = BUF_SIZE
          · simp only [hlen, if_pos]
            rw [remove_client_fst hg hfd]
            exact tableInv_set hinv (slotInv_closed cli)
          · simp only [hlen, if_neg, not_false_eq_true]
            exact hinv
        | some idx =>
          obtain ⟨cli', sends, hpm, hcase⟩ := process_message_shape clients i cli (idx + 1)
            hg hfd
          have hinvc : slotInv cli' := by
            rcases hcase with ⟨h1, h2, h3⟩ | ⟨h1, h2⟩
            · exact ⟨by rw [h2]; simp [BUF_SIZE], fun _ => ⟨h2, h3⟩⟩
            · exact ⟨by rw [h2]; exact hbufle, fun hq => absurd (h1 ▸ hq) hfd⟩
          simp only [hpm, List.getElem?_set_self hi]
          by_cases hfd' : cli'.fd = -1
          · simp only [hfd', if_pos]
            exact tableInv_set hinv hinvc
          · simp only [hfd', if_neg, not_false_eq_true, List.set_set]
            apply ih
            apply tableInv_set hinv
            constructor
            · show (cli'.buf.drop (idx + 1)).length ≤ BUF_SIZE
              rw [List.length_drop]
              have hble : cli'.buf.length ≤ BUF_SIZE := hinvc.1
              omega
            · intro hq
              exact absurd hq hfd'

theorem tableInv_remove_client (clients : List Client) (i : Nat)
    (hinv : tableInv clients) : tableInv (remove_client clients i).1 := by
  unfold remove_client
  cases hg : clients[i]? with
  | none => exact hinv
  | some cli =>
    by_cases hfd : cli.fd = -1
    · simp only [hfd, if_pos]
      exact hinv
    · simp only [hfd, if_neg, not_false_eq_true]
      by_cases hu : cli.hasUsername
      · simp only [hu, if_pos]
        exact tableInv_set hinv (slotInv_closed cli)
      · simp only [hu, Bool.false_eq_true, if_neg, not_false_eq_true]
        exact tableInv_set hinv (slotInv_closed cli)

theorem tableInv_handle_client_data (clients : List Client) (i : Nat) (data : Bytes)
    (hinv : tableInv clients) : tableInv (handle_client_data clients i data).1 := by
  unfold handle_client_data
  cases hg : clients[i]? with
  | none => exact hinv
  | some cli =>
    by_cases hfd : cli.fd = -1
    · simp only [hfd, if_pos]
      exact hinv
    · simp only [hfd, if_neg, not_false_eq_true]
      by_cases hl : 0 < (data.take (BUF_SIZE - cli.buf.length)).length
      · simp only [hl, if_pos]
        apply tableInv_process_loop
        apply tableInv_set hinv
        constructor
        · show (cli.buf ++ data.take (BUF_SIZE - cli.buf.length)).length ≤ BUF_SIZE
          rw [List.length_append]
          have h1 := (hinv cli (List.getElem?_mem hg)).1
          have h2 := List.length_take_le (BUF_SIZE - cli.buf.length) data
          omega
        · intro hq
          exact absurd hq hfd
      · simp only [hl, if_neg, not_false_eq_true]
        exact tableInv_remove_client clients i hinv

theorem tableInv_accept_client (clients : List Client) (newFd : Int) (ip port : Bytes)
    (hinv : tableInv clients) : tableInv (accept_client clients newFd ip port).1 := by
  by_cases hf : newFd = -1
  · unfold accept_client
    simp only [hf, if_pos]
    exact hinv
  · cases hfind : findEmptySlot clients with
    | none =>
      unfold accept_client
      simp only [hf, if_neg, not_false_eq_true, hfind]
      exact hinv
    | some j =>
      cases hgj : clients[j]? with
      | none =>
        unfold accept_client
        simp only [hf, if_neg, not_false_eq_true, hfind, hgj]
        exact hinv
      | some old =>
        unfold accept_client
        simp only [hf, if_neg, not_false_eq_true, hfind, hgj]
        apply tableInv_set hinv
        exact ⟨by simp [BUF_SIZE], fun hq => absurd hq hf⟩

/-- C10: every server entry point preserves the table invariant — each
slot's buffer holds at most `BUF_SIZE = 1024` bytes, and an empty slot
(`fd = -1`) has an empty buffer and no username — and once a session is
closed mid-processing, neither the frame loop nor a further readiness
event processes anything from its remaining buffered bytes. -/
theorem c10_invariants (clients : List Client) (hinv : tableInv clients) :
    (∀ newFd ip port, tableInv (accept_client clients newFd ip port).1) ∧
    (∀ i data, tableInv (handle_client_data clients i data).1) ∧
    (∀ i, tableInv (remove_client clients i).1) ∧
    (∀ i fuel, tableInv (process_loop clients i fuel).1) ∧
    (∀ i fuel cli, clients[i]? = some cli → cli.fd = -1 →
      process_loop clients i fuel = (clients, [], [])) ∧
    (∀ i data cli, clients[i]? = some cli → cli.fd = -1 →
      handle_client_data clients i data = (clients, [], [])) := by
  refine ⟨?_, ?_, ?_, ?_, ?_, ?_⟩
  · intro newFd ip port
    exact tableInv_accept_client clients newFd ip port hinv
  · intro i data
    exact tableInv_handle_client_data clients i data hinv
  · intro i
    exact tableInv_remove_client clients i hinv
  · intro i fuel
    exact tableInv_process_loop fuel clients i hinv
  · intro i fuel cli hg hfd
    exact process_loop_closed clients i cli fuel hg hfd
  · intro i data cli hg hfd
    exact handle_client_data_closed clients i cli data hg hfd

/-- Witness for C10 at concrete tables: accepting a client and handling
data preserve the invariant, and a closed slot processes nothing. -/
theorem c10_witness :
    tableInv ((accept_client [fixOpen, fixBob] 9 [4, 3, 2, 1] [2, 2]).1) ∧
    tableInv ((handle_client_data [fixOpen, fixBob] 0 [3, 10]).1) ∧
    process_loop [{ fixOpen with fd := -1 }] 0 5 = ([{ fixOpen with fd := -1 }], [], []) := by
  have hinv1 : tableInv [fixOpen, fixBob] := by
    intro c hc
    simp only [List.mem_cons, List.not_mem_nil, or_false] at hc
    rcases hc with rfl | rfl
    · exact ⟨by simp [fixOpen, BUF_SIZE], by intro hq; exact absurd hq (by decide)⟩
    · exact ⟨by simp [fixBob, BUF_SIZE], by intro hq; exact absurd hq (by decide)⟩
  have hinv2 : tableInv [{ fixOpen with fd := -1 }] := by
    intro c hc
    simp only [List.mem_cons, List.not_mem_nil, or_false] at hc
    rcases hc with rfl
    exact ⟨by simp [fixOpen, BUF_SIZE], fun _ => ⟨rfl, rfl⟩⟩
  have h1 := c10_invariants [fixOpen, fixBob] hinv1
  have h2 := c10_invariants [{ fixOpen with fd := -1 }] hinv2
  exact ⟨h1.1 9 [4, 3, 2, 1] [2, 2], h1.2.1 0 [3, 10],
    h2.2.2.2.2.1 0 5 { fixOpen with fd := -1 } rfl rfl⟩

end TcpGroupChat
